import Mathlib

/-!
# Verification of the package repository module (`src/portable/repository.rs`)

Shallow embedding of the resolver+fetcher core: the version/channel query
model, the resilient HTTP fetch loop, package-index filtering/selection and
the streaming download loop.  External crates (`ver`, `url`, `hex`,
`blake2b_simd`, HTTP transport) are modelled from the specification; the
functions of the repository module itself are translated directly from the
source.
-/

/-! ## Decimal numerals

Helper machinery for the modelled external version algebra's display and
parsing: little-endian decimal digits of a natural number, rendered
most-significant-digit first. -/

def natDigitsAux : Nat → Nat → List Nat
  | 0, _ => []
  | _, 0 => []
  | fuel+1, n => n % 10 :: natDigitsAux fuel (n / 10)

/-- Little-endian decimal digits of `n` (the one-element list holding 0 for zero). -/
def natDigits (n : Nat) : List Nat :=
  if n = 0 then [0] else natDigitsAux n n

/-- Value of a little-endian digit list. -/
def ofDigitsLE : List Nat → Nat
  | [] => 0
  | d :: ds => d + 10 * ofDigitsLE ds

/-- Decimal rendering of `n` as characters, most significant digit first. -/
def natChars (n : Nat) : List Char :=
  (natDigits n).reverse.map Nat.digitChar

def charDigit? (c : Char) : Option Nat :=
  if '0' ≤ c ∧ c ≤ '9' then some (c.toNat - 48) else none

def digitsOfChars : List Char → Option (List Nat)
  | [] => some []
  | c :: cs => do
    let d ← charDigit? c
    let ds ← digitsOfChars cs
    some (d :: ds)

/-- Parse a non-empty all-digit character list as a decimal number. -/
def parseDigits (l : List Char) : Option Nat :=
  match digitsOfChars l with
  | some [] => none
  | some ds => some (ofDigitsLE ds.reverse)
  | none => none

theorem natDigitsAux_lt (fuel n : Nat) :
    ∀ d ∈ natDigitsAux fuel n, d < 10 := by
  induction fuel generalizing n with
  | zero => intro d hd; simp [natDigitsAux] at hd
  | succ f ih =>
    intro d hd
    cases n with
    | zero => simp [natDigitsAux] at hd
    | succ m =>
      simp only [natDigitsAux, List.mem_cons] at hd
      rcases hd with h | h
      · omega
      · exact ih _ d h

theorem natDigits_lt (n : Nat) : ∀ d ∈ natDigits n, d < 10 := by
  intro d hd
  unfold natDigits at hd
  by_cases h : n = 0
  · simp [h] at hd; omega
  · rw [if_neg h] at hd; exact natDigitsAux_lt n n d hd

theorem natDigits_ne_nil (n : Nat) : natDigits n ≠ [] := by
  unfold natDigits
  by_cases h : n = 0
  · simp [h]
  · rw [if_neg h]
    cases n with
    | zero => exact absurd rfl h
    | succ m => simp [natDigitsAux]

theorem ofDigitsLE_natDigitsAux (fuel n : Nat) (h : n ≤ fuel) :
    ofDigitsLE (natDigitsAux fuel n) = n := by
  induction fuel generalizing n with
  | zero =>
    have : n = 0 := by omega
    simp [this, natDigitsAux, ofDigitsLE]
  | succ f ih =>
    cases n with
    | zero => simp [natDigitsAux, ofDigitsLE]
    | succ m =>
      simp only [natDigitsAux, ofDigitsLE]
      have hdiv : (m + 1) / 10 ≤ f := by omega
      rw [ih _ hdiv]
      omega

theorem ofDigitsLE_natDigits (n : Nat) : ofDigitsLE (natDigits n) = n := by
  unfold natDigits
  by_cases h : n = 0
  · simp [h, ofDigitsLE]
  · rw [if_neg h]; exact ofDigitsLE_natDigitsAux n n le_rfl

theorem charDigit?_digitChar : ∀ d < 10, charDigit? (Nat.digitChar d) = some d := by
  decide

theorem digitChar_ne_dot : ∀ d < 10, Nat.digitChar d ≠ '.' := by
  decide

theorem dot_not_mem_natChars (n : Nat) : '.' ∉ natChars n := by
  intro hmem
  unfold natChars at hmem
  rcases List.mem_map.mp hmem with ⟨d, hd, hc⟩
  have hlt : d < 10 := natDigits_lt n d (List.mem_reverse.mp hd)
  exact digitChar_ne_dot d hlt hc

theorem digitsOfChars_map_digitChar (ds : List Nat) (h : ∀ d ∈ ds, d < 10) :
    digitsOfChars (ds.map Nat.digitChar) = some ds := by
  induction ds with
  | nil => rfl
  | cons d ds ih =>
    have hd : d < 10 := h d (List.mem_cons_self d ds)
    have hds : ∀ x ∈ ds, x < 10 := fun x hx => h x (List.mem_cons_of_mem d hx)
    simp only [List.map_cons, digitsOfChars, charDigit?_digitChar d hd,
      ih hds, Option.bind_eq_bind, Option.some_bind]

theorem parseDigits_natChars (n : Nat) : parseDigits (natChars n) = some n := by
  unfold parseDigits natChars
  rw [digitsOfChars_map_digitChar _ (by
    intro d hd
    exact natDigits_lt n d (List.mem_reverse.mp hd))]
  have hne : (natDigits n).reverse ≠ [] := by
    intro h
    exact natDigits_ne_nil n (by simpa using congrArg List.reverse h)
  match hrev : (natDigits n).reverse with
  | [] => exact absurd hrev hne
  | d :: ds =>
    simp only []
    rw [← hrev, List.reverse_reverse, ofDigitsLE_natDigits]

/-! ## Splitting character lists

List-level splitter used by the modelled parsers (the external crates split
version and URL text on separator characters). -/

def splitOnChar (sep : Char) : List Char → List (List Char)
  | [] => [[]]
  | c :: cs =>
    match splitOnChar sep cs with
    | [] => [[]]
    | chunk :: chunks =>
      if c = sep then [] :: chunk :: chunks else (c :: chunk) :: chunks

theorem splitOnChar_ne_nil (sep : Char) (l : List Char) :
    splitOnChar sep l ≠ [] := by
  cases l with
  | nil => simp [splitOnChar]
  | cons c cs =>
    simp only [splitOnChar]
    match splitOnChar sep cs with
    | [] => simp
    | chunk :: chunks =>
      by_cases h : c = sep <;> simp [h]

theorem splitOnChar_not_mem (sep : Char) (l : List Char) (h : sep ∉ l) :
    splitOnChar sep l = [l] := by
  induction l with
  | nil => rfl
  | cons c cs ih =>
    have hc : c ≠ sep := fun hc => h (by simp [hc])
    have hcs : sep ∉ cs := fun hm => h (List.mem_cons_of_mem c hm)
    simp only [splitOnChar, ih hcs]
    rw [if_neg hc]

theorem splitOnChar_append (sep : Char) (a b : List Char) (h : sep ∉ a) :
    splitOnChar sep (a ++ sep :: b) = a :: splitOnChar sep b := by
  induction a with
  | nil =>
    simp only [List.nil_append, splitOnChar]
    match hb : splitOnChar sep b with
    | [] => exact absurd hb (splitOnChar_ne_nil sep b)
    | chunk :: chunks => simp
  | cons c cs ih =>
    have hc : c ≠ sep := fun hc => h (by simp [hc])
    have hcs : sep ∉ cs := fun hm => h (List.mem_cons_of_mem c hm)
    simp only [List.cons_append, splitOnChar, List.append_eq, ih hcs]
    rw [if_neg hc]

namespace Repo

/-! ## The external version algebra (`ver` module)

Modelled from the spec: the low-level version-comparison library is consumed
as a black box and its source is not part of this repository.  Per the spec,
a *Specific* version has a major number and a minor classification
(Dev / Alpha / Beta / Rc / Minor, each carrying a number); a *Filter*
optionally narrows to one of the non-dev minor kinds; a *Build* version
additionally carries build metadata and is ordered via its Specific
projection. -/

inductive MinorVersion where
  | dev (n : Nat)
  | alpha (n : Nat)
  | beta (n : Nat)
  | rc (n : Nat)
  | minor (n : Nat)
deriving DecidableEq, Repr

inductive FilterMinor where
  | minor (n : Nat)
  | alpha (n : Nat)
  | beta (n : Nat)
  | rc (n : Nat)
deriving DecidableEq, Repr

structure Specific where
  major : Nat
  minor : MinorVersion
deriving DecidableEq, Repr

structure Filter where
  major : Nat
  minor : Option FilterMinor
deriving DecidableEq, Repr

structure Build where
  specific : Specific
  metadata : Option (List Char)
deriving DecidableEq, Repr

/-- Release-stage rank used by the modelled total order on `Specific`. -/
def MinorVersion.rank : MinorVersion → Nat
  | .dev _ => 0
  | .alpha _ => 1
  | .beta _ => 2
  | .rc _ => 3
  | .minor _ => 4

def MinorVersion.num : MinorVersion → Nat
  | .dev n => n
  | .alpha n => n
  | .beta n => n
  | .rc n => n
  | .minor n => n

/-- Modelled from the spec: the external version algebra's total ordering on
`Specific` versions (major number, then release stage, then stage number). -/
def Specific.le (a b : Specific) : Bool :=
  Nat.blt a.major b.major ||
    (a.major == b.major &&
      (Nat.blt a.minor.rank b.minor.rank ||
        (a.minor.rank == b.minor.rank && Nat.ble a.minor.num b.minor.num)))

theorem Specific.le_iff (a b : Specific) :
    Specific.le a b = true ↔
      a.major < b.major ∨
        (a.major = b.major ∧
          (a.minor.rank < b.minor.rank ∨
            (a.minor.rank = b.minor.rank ∧ a.minor.num ≤ b.minor.num))) := by
  simp [Specific.le, Nat.blt_eq, Nat.ble_eq]

theorem Specific.le_total (a b : Specific) :
    Specific.le a b = true ∨ Specific.le b a = true := by
  rw [Specific.le_iff, Specific.le_iff]
  omega

theorem Specific.le_trans (a b c : Specific)
    (hab : Specific.le a b = true) (hbc : Specific.le b c = true) :
    Specific.le a c = true := by
  rw [Specific.le_iff] at *
  omega

theorem Specific.le_refl (a : Specific) : Specific.le a a = true := by
  rw [Specific.le_iff]
  omega

/-! ### Display and parsing of versions and filters

Modelled from the spec: the external algebra supplies display formatting and
parsing of filter/build/specific version text.  The textual format follows
the one used throughout the repository: `major.minor` for stable releases and
`major.0-alpha.n` / `major.0-beta.n` / `major.0-rc.n` / `major.0-dev.n` for
the pre-release stages, with optional `+metadata` on build versions. -/

def FilterMinor.chars : FilterMinor → List Char
  | .minor m => natChars m
  | .alpha v => String.data "0-alpha" ++ '.' :: natChars v
  | .beta v => String.data "0-beta" ++ '.' :: natChars v
  | .rc v => String.data "0-rc" ++ '.' :: natChars v

def Filter.chars (f : Filter) : List Char :=
  natChars f.major ++ '.' ::
    (match f.minor with
     | none => ['0']
     | some m => m.chars)

/-- The filter's own string form (the external `Display` implementation). -/
def Filter.toStr (f : Filter) : String :=
  String.mk f.chars

def parseFilterChars (l : List Char) : Option Filter :=
  match splitOnChar '.' l with
  | [a] => (parseDigits a).map (fun major => ⟨major, none⟩)
  | [a, b] => do
    let major ← parseDigits a
    let m ← parseDigits b
    some ⟨major, some (.minor m)⟩
  | [a, b, c] => do
    let major ← parseDigits a
    let n ← parseDigits c
    if b = String.data "0-alpha" then some ⟨major, some (.alpha n)⟩
    else if b = String.data "0-beta" then some ⟨major, some (.beta n)⟩
    else if b = String.data "0-rc" then some ⟨major, some (.rc n)⟩
    else none
  | _ => none

/-- Modelled from the spec: `ver::Filter`'s `FromStr` implementation. -/
def parseFilter (s : String) : Option Filter :=
  parseFilterChars s.data

def parseSpecificChars (l : List Char) : Option Specific :=
  match splitOnChar '.' l with
  | [a, b] => do
    let major ← parseDigits a
    let m ← parseDigits b
    some ⟨major, .minor m⟩
  | [a, b, c] => do
    let major ← parseDigits a
    let n ← parseDigits c
    if b = String.data "0-alpha" then some ⟨major, .alpha n⟩
    else if b = String.data "0-beta" then some ⟨major, .beta n⟩
    else if b = String.data "0-rc" then some ⟨major, .rc n⟩
    else if b = String.data "0-dev" then some ⟨major, .dev n⟩
    else none
  | _ => none

/-- Modelled from the spec: `ver::Build`'s `FromStr` implementation (a
specific version, optionally followed by `+metadata`). -/
def parseBuild (s : String) : Option Build :=
  match splitOnChar '+' s.data with
  | [v] => (parseSpecificChars v).map (fun sp => ⟨sp, none⟩)
  | [v, m] => (parseSpecificChars v).map (fun sp => ⟨sp, some m⟩)
  | _ => none

/-- Modelled from the spec: the external `Filter.matches(Build)` compatibility
test — major equality plus minor-kind/number compatibility (a filter with no
minor constraint accepts any minor of its major). -/
def Filter.matches (f : Filter) (b : Build) : Bool :=
  f.major == b.specific.major &&
    (match f.minor, b.specific.minor with
     | none, _ => true
     | some (.minor m), .minor n => m == n
     | some (.alpha m), .alpha n => m == n
     | some (.beta m), .beta n => m == n
     | some (.rc m), .rc n => m == n
     | some _, _ => false)

theorem parseFilterChars_roundtrip (f : Filter) (m : FilterMinor)
    (hm : f.minor = some m) : parseFilterChars f.chars = some f := by
  obtain ⟨major, fm⟩ := f
  simp only at hm
  subst hm
  cases m with
  | minor v =>
    simp only [Filter.chars, FilterMinor.chars, parseFilterChars]
    rw [splitOnChar_append '.' _ _ (dot_not_mem_natChars major),
      splitOnChar_not_mem '.' _ (dot_not_mem_natChars v)]
    simp [parseDigits_natChars]
  | alpha v =>
    simp only [Filter.chars, FilterMinor.chars, parseFilterChars]
    rw [splitOnChar_append '.' _ _ (dot_not_mem_natChars major),
      splitOnChar_append '.' _ _ (by decide),
      splitOnChar_not_mem '.' _ (dot_not_mem_natChars v)]
    simp [parseDigits_natChars]
  | beta v =>
    simp only [Filter.chars, FilterMinor.chars, parseFilterChars]
    rw [splitOnChar_append '.' _ _ (dot_not_mem_natChars major),
      splitOnChar_append '.' _ _ (by decide),
      splitOnChar_not_mem '.' _ (dot_not_mem_natChars v)]
    simp [parseDigits_natChars]
  | rc v =>
    simp only [Filter.chars, FilterMinor.chars, parseFilterChars]
    rw [splitOnChar_append '.' _ _ (dot_not_mem_natChars major),
      splitOnChar_append '.' _ _ (by decide),
      splitOnChar_not_mem '.' _ (dot_not_mem_natChars v)]
    simp [parseDigits_natChars]

theorem dot_mem_Filter_chars (f : Filter) : '.' ∈ f.chars := by
  unfold Filter.chars
  exact List.mem_append_right _ (List.mem_cons_self _ _)

theorem Filter_toStr_ne_star (f : Filter) : f.toStr ≠ "*" := by
  intro h
  have hdata : f.chars = String.data "*" := congrArg String.data h
  have := dot_mem_Filter_chars f
  rw [hdata] at this
  simp at this

theorem Filter_toStr_ne_nightly (f : Filter) : f.toStr ≠ "nightly" := by
  intro h
  have hdata : f.chars = String.data "nightly" := congrArg String.data h
  have := dot_mem_Filter_chars f
  rw [hdata] at this
  simp at this

/-! ## Repository data model (from the source)

Direct translations of the types declared in `src/portable/repository.rs`.
URLs are modelled as parsed scheme/host/path triples (the external `url`
crate is out of scope and modelled from the spec further below). -/

inductive Channel where
  | stable
  | nightly
deriving DecidableEq, Repr

inductive PackageType where
  | tarZst
deriving DecidableEq, Repr

structure Query where
  channel : Channel
  version : Option Filter
deriving DecidableEq, Repr

structure Url where
  scheme : String
  host : String
  path : List String
deriving DecidableEq, Repr

structure Verification where
  size : Nat
  blake2b : Option String
deriving DecidableEq, Repr

structure InstallRef where
  path : String
  kind : String
  encoding : Option String
  verification : Verification
deriving DecidableEq, Repr

structure PackageData where
  basename : String
  version : String
  installrefs : List InstallRef
deriving DecidableEq, Repr

structure RepositoryData where
  packages : List PackageData
deriving DecidableEq, Repr

inductive PackageHash where
  | blake2b (s : String)
  | unknown (s : String)
deriving DecidableEq, Repr

structure PackageInfo where
  version : Build
  url : Url
  size : Nat
  hash : PackageHash
  kind : PackageType
deriving DecidableEq, Repr

/-! ## Channel and Query operations (from the source) -/

/-- Source: `Channel::from_version` (repository.rs lines 507-520). -/
def Channel.from_version (ver : Specific) : Except String Channel :=
  match ver.minor with
  | .dev _ => .ok .nightly
  | .minor _ => .ok .stable
  | _ =>
    if ver.major = 1 then
      -- before 1.0 all prereleases go into a stable channel
      .ok .stable
    else
      .error "prerelease versions > 1.0 are no supported yet"

/-- Source: `Channel::from_filter` (repository.rs lines 521-534). -/
def Channel.from_filter (ver : Filter) : Except String Channel :=
  match ver.minor with
  | none => .ok .stable
  | some (.minor _) => .ok .stable
  | some _ =>
    if ver.major = 1 then
      .ok .stable
    else
      .error "prerelease versions > 1.0 are no supported yet"

/-- Source: `Channel::as_str` (repository.rs lines 535-540). -/
def Channel.as_str : Channel → String
  | .nightly => "nightly"
  | .stable => "stable"

/-- Source: `Query::nightly` (repository.rs lines 325-327). -/
def Query.nightlyQuery : Query := ⟨Channel.nightly, none⟩

/-- Modelled from the spec: `server::version::Version<String>` (declared in
`src/server/version.rs`, which is not part of this repository snapshot) wraps
the version text; `num()` exposes the numeric part, here the text itself. -/
abbrev Version := String

def Version.num (v : Version) : String := v

/-- Source: `Query::from_options` (repository.rs lines 331-344): choose the channel
from the nightly flag, then parse any version text into a filter. -/
def Query.from_options (nightly : Bool) (version : Option Version) :
    Except String Query :=
  let channel := if nightly then Channel.nightly else Channel.stable
  match version with
  | none => .ok ⟨channel, none⟩
  | some v =>
    match parseFilter v.num with
    | some f => .ok ⟨channel, some f⟩
    | none => .error "Unexpected --version"

/-- Source: `Query::from_option` (repository.rs lines 345-361). -/
def Query.from_option (version : Option Version) : Except String Query :=
  match version with
  | none => .ok ⟨Channel.stable, none⟩
  | some v =>
    if v.num = "nightly" then .ok ⟨Channel.nightly, none⟩
    else
      match parseFilter v.num with
      | none => .error "Unexpected --version"
      | some f =>
        match Channel.from_filter f with
        | .ok channel => .ok ⟨channel, some f⟩
        | .error e => .error e

/-- Source: `Query::matches` (repository.rs lines 425-434): with a filter, delegate to
the filter; without one, derive the version's channel and compare, treating a
channel-derivation error as a non-match. -/
def Query.matches (q : Query) (ver : Build) : Bool :=
  match q.version with
  | some query_ver => query_ver.matches ver
  | none =>
    match Channel.from_version ver.specific with
    | .ok channel => q.channel == channel
    | .error _ => false

/-- Source: `Query::as_config_value` (repository.rs lines 435-443). -/
def Query.as_config_value (q : Query) : String :=
  if q.channel = Channel.nightly then "nightly"
  else
    match q.version with
    | some ver => ver.toStr
    | none => "*"

/-- Source: `Deserialize for Query` (repository.rs lines 479-504): `"*"` is the
stable wildcard, `"nightly"` the nightly wildcard, anything else is parsed as
a filter with the channel inferred via `Channel::from_filter`. -/
def Query.deserialize (s : String) : Except String Query :=
  if s = "*" then .ok ⟨Channel.stable, none⟩
  else if s = "nightly" then .ok ⟨Channel.nightly, none⟩
  else
    match parseFilter s with
    | none => .error "filter parse error"
    | some ver =>
      match Channel.from_filter ver with
      | .ok channel => .ok ⟨channel, some ver⟩
      | .error e => .error e

/-! ## URLs

Modelled from the spec: the external `url` crate supplies parsing and
RFC-3986 joining.  A URL is a scheme, a host and a path segment list;
`parseStr` accepts absolute `scheme://host/seg/...` text and reports
relative text with the distinguished `RelativeUrlWithoutBase` error;
`join` resolves a location against a base URL (absolute path replaces the
whole path, a relative path replaces the last segment). -/

inductive UrlParseError where
  | relativeUrlWithoutBase
  | other
deriving DecidableEq, Repr

def Url.parseStr (s : String) : Except UrlParseError Url :=
  match splitOnChar ':' s.data with
  | [_] => .error .relativeUrlWithoutBase
  | [scheme, rest] =>
    match rest with
    | '/' :: '/' :: hostpath =>
      match splitOnChar '/' hostpath with
      | host :: segs => .ok ⟨String.mk scheme, String.mk host, segs.map String.mk⟩
      | [] => .error .other
    | _ => .error .other
  | _ => .error .other

def Url.join (u : Url) (loc : String) : Url :=
  match loc.data with
  | '/' :: rest => { u with path := (splitOnChar '/' rest).map String.mk }
  | l => { u with path := u.path.dropLast ++ (splitOnChar '/' l).map String.mk }

/-- Redirect-location resolution as in `get_header` (repository.rs lines
145-151): try an absolute parse, fall back to joining relative locations to
the current URL, propagate any other parse error. -/
def resolveLocation (url : Url) (location : String) : Except UrlParseError Url :=
  match Url.parseStr location with
  | .ok u => .ok u
  | .error .relativeUrlWithoutBase => .ok (url.join location)
  | .error e => .error e

/-! ## The resilient fetcher (`get_header`, repository.rs lines 119-177)

The HTTP transport is modelled as an oracle mapping the index of each GET
request (and the URL it targets) to the transport's reply; the loop itself
is translated directly from the source.  The outcome records the result
together with the number of GET requests issued and the seconds slept, so
that the retry/backoff behaviour is visible to theorems. -/

deriving instance DecidableEq for Except

structure Response where
  status : Nat
  location : Option String := none
  body : Except String RepositoryData := .error "no body"
deriving DecidableEq, Repr

inductive HttpReply where
  | ok (res : Response)
  | transportError
deriving DecidableEq, Repr

inductive FetchError where
  | notFound
  | httpFailure (status : Nat)
  | httpError
  | tooManyAttempts
  | unexpectedRedirect (status : Nat)
  | urlError
  | jsonError (msg : String)
deriving DecidableEq, Repr

structure FetchOutcome where
  result : Except FetchError Response
  requests : Nat
  sleeps : List Nat
deriving DecidableEq, Repr

def MAX_ATTEMPTS : Nat := 10

/-- Source: `retry_seconds` (repository.rs lines 119-121) as the value at
position `i` of the iterator `[5, 15, 30, 60]` chained with repeated `60`. -/
def retry_seconds (i : Nat) : Nat :=
  [5, 15, 30, 60].getD i 60

def isSuccess (s : Nat) : Bool := Nat.ble 200 s && Nat.ble s 299

def isRedirection (s : Nat) : Bool := Nat.ble 300 s && Nat.ble s 399

def isServerError (s : Nat) : Bool := Nat.ble 500 s && Nat.ble s 599

/-- The loop of `get_header` (repository.rs lines 131-176).  State: current
URL, the `attempt` counter, the index of the next GET request, the position
in the backoff schedule, and the seconds slept so far.  Every non-returning
iteration increments `attempt` and bails out with "too many attempts" once
it exceeds `MAX_ATTEMPTS`. -/
def get_header_loop (oracle : Nat → Url → HttpReply) (url : Url)
    (attempt reqIdx retryIdx : Nat) (sleeps : List Nat) : FetchOutcome :=
  match oracle reqIdx url with
  | .transportError => ⟨.error .httpError, reqIdx + 1, sleeps⟩
  | .ok res =>
    if isSuccess res.status then
      ⟨.ok res, reqIdx + 1, sleeps⟩
    else if isRedirection res.status then
      match res.location with
      | none => ⟨.error (.unexpectedRedirect res.status), reqIdx + 1, sleeps⟩
      | some location =>
        match resolveLocation url location with
        | .error _ => ⟨.error .urlError, reqIdx + 1, sleeps⟩
        | .ok new_url =>
          if _h : attempt + 1 > MAX_ATTEMPTS then
            ⟨.error .tooManyAttempts, reqIdx + 1, sleeps⟩
          else
            get_header_loop oracle new_url (attempt + 1) (reqIdx + 1)
              retryIdx sleeps
    else if isServerError res.status || res.status == 429 then
      let secs := retry_seconds retryIdx
      if _h : attempt + 1 > MAX_ATTEMPTS then
        ⟨.error .tooManyAttempts, reqIdx + 1, sleeps ++ [secs]⟩
      else
        get_header_loop oracle url (attempt + 1) (reqIdx + 1) (retryIdx + 1)
          (sleeps ++ [secs])
    else if res.status == 404 then
      ⟨.error .notFound, reqIdx + 1, sleeps⟩
    else
      ⟨.error (.httpFailure res.status), reqIdx + 1, sleeps⟩
termination_by MAX_ATTEMPTS + 1 - attempt
decreasing_by
  all_goals simp_wf
  all_goals omega

/-- Source: `get_header` (repository.rs lines 123-177). -/
def get_header (oracle : Nat → Url → HttpReply) (url : Url) : FetchOutcome :=
  get_header_loop oracle url 0 0 0 []

/-- Source: `get_json` (repository.rs lines 179-188): fetch, then decode the
body, wrapping decode failures. -/
def get_json (oracle : Nat → Url → HttpReply) (url : Url) :
    Except FetchError RepositoryData :=
  match (get_header oracle url).result with
  | .error e => .error e
  | .ok res =>
    match res.body with
    | .ok data => .ok data
    | .error msg => .error (.jsonError msg)

/-! ## Package index selection (repository.rs lines 190-256) -/

def hexVal? (c : Char) : Option Nat :=
  if '0' ≤ c ∧ c ≤ '9' then some (c.toNat - 48)
  else if 'a' ≤ c ∧ c ≤ 'f' then some (c.toNat - 87)
  else if 'A' ≤ c ∧ c ≤ 'F' then some (c.toNat - 55)
  else none

def hexDecodeChars : List Char → Option (List Nat)
  | [] => some []
  | [_] => none
  | a :: b :: rest => do
    let hi ← hexVal? a
    let lo ← hexVal? b
    let tl ← hexDecodeChars rest
    some ((hi * 16 + lo) :: tl)

/-- Modelled from the spec: `hex::decode` — pairs of hex digits to bytes,
failing on odd length or any non-hex character. -/
def hexDecode (s : String) : Option (List Nat) :=
  hexDecodeChars s.data

/-- Source: `valid_hash` (repository.rs lines 216-219). -/
def valid_hash (val : String) : Bool :=
  val.length == 128 &&
    ((hexDecode val).map (fun x => x.length == 64)).getD false

/-- The install-reference predicate inlined in `_filter_package`
(repository.rs lines 199-204): tar content type, zstd encoding and a valid
blake2b verification hash. -/
def installref_ok (r : InstallRef) : Bool :=
  r.kind == "application/x-tar" &&
    r.encoding == some "zstd" &&
    ((r.verification.blake2b.map valid_hash).getD false)

/-- Source: `_filter_package` (repository.rs lines 197-214): first qualifying
install reference, parsed version, joined URL (the three fallible steps of
the source are the three matches here). -/
def _filter_package (pkg_root : Url) (pkg : PackageData) : Option PackageInfo :=
  match pkg.installrefs.find? installref_ok with
  | none => none
  | some iref =>
    match parseBuild pkg.version with
    | none => none
    | some version =>
      match iref.verification.blake2b with
      | none => none
      | some hash =>
        some ⟨version, pkg_root.join iref.path, iref.verification.size,
          .blake2b hash, .tarZst⟩

/-- Source: `filter_package` (repository.rs lines 190-196); the logging of
skipped packages has no observable effect here. -/
def filter_package (pkg_root : Url) (pkg : PackageData) : Option PackageInfo :=
  _filter_package pkg_root pkg

/-- The channel- and platform-specific index path (repository.rs lines
232-235). -/
def index_path (plat : String) : Channel → String
  | .stable => "/archive/.jsonindexes/" ++ plat ++ ".json"
  | .nightly => "/archive/.jsonindexes/" ++ plat ++ ".nightly.json"

/-- Source: `get_server_packages` (repository.rs lines 221-246) from the
point the index fetch completes: a `NotFound` failure is replaced by an
empty package list, any other failure propagates, and entries are filtered
to `edgedb-server` packages with a qualifying install reference.  The fetch
itself is the seam `data_result` (in the source,
`task::block_on(get_json(&url))`). -/
def get_server_packages (data_result : Except FetchError RepositoryData)
    (pkg_root : Url) : Except FetchError (List PackageInfo) :=
  match data_result with
  | .ok data =>
    .ok ((data.packages.filter (fun pkg => pkg.basename == "edgedb-server")).filterMap
      (filter_package pkg_root))
  | .error e => if e = .notFound then .ok [] else .error e

/-- One step of Rust's `Iterator::max_by_key` on the `Specific` projection:
the new element replaces the current maximum when its key is at least as
large (so of several equally maximal elements the last one is kept). -/
def pick_step (acc : Option PackageInfo) (pkg : PackageInfo) :
    Option PackageInfo :=
  match acc with
  | none => some pkg
  | some m =>
    if Specific.le m.version.specific pkg.version.specific then some pkg
    else some m

/-- Rust's `Iterator::max_by_key` on the `Specific` projection. -/
def pick_max (pkgs : List PackageInfo) : Option PackageInfo :=
  pkgs.foldl pick_step none

/-- Source: `get_server_package` (repository.rs lines 248-256): keep the
candidates accepted by the query's filter (no filter accepts everything) and
return the maximum by `Specific` projection. -/
def get_server_package (query : Query)
    (data_result : Except FetchError RepositoryData) (pkg_root : Url) :
    Except FetchError (Option PackageInfo) :=
  match get_server_packages data_result pkg_root with
  | .error e => .error e
  | .ok pkgs =>
    .ok (pick_max (pkgs.filter (fun pkg =>
      (query.version.map (fun q => q.matches pkg.version)).getD true)))

/-! ## The streaming downloader (`download`, repository.rs lines 258-294) -/

/-- Modelled from the spec: the Blake2b-512 digest supplied by the external
`blake2b_simd` crate, treated as a black-box function of the input byte
sequence; the model represents the digest by that byte sequence itself. -/
def blake2b_hash (bytes : List Nat) : List Nat := bytes

/-- The incremental hasher state: the bytes fed so far. -/
structure HashState where
  fed : List Nat
deriving DecidableEq, Repr

def HashState.update (st : HashState) (chunk : List Nat) : HashState :=
  ⟨st.fed ++ chunk⟩

def HashState.finalize (st : HashState) : List Nat :=
  blake2b_hash st.fed

/-- The read/write/hash loop of `download` (repository.rs lines 281-290):
read up to 16384 bytes, stop on a zero-byte read, otherwise append the chunk
to the destination file and feed it to the hasher. -/
def download_loop (body out : List Nat) (hasher : HashState) :
    List Nat × HashState :=
  if body.take 16384 = [] then (out, hasher)
  else
    download_loop (body.drop 16384) (out ++ body.take 16384)
      (hasher.update (body.take 16384))
termination_by body.length
decreasing_by
  rename_i h
  simp_wf
  cases body with
  | nil => simp at h
  | cons b bs =>
    simp only [List.length_drop, List.length_cons]
    omega

/-- Source: `download` (repository.rs lines 258-294) from the point the body
stream is obtained: returns the destination file's final contents and the
finalized digest. -/
def download (body : List Nat) : List Nat × List Nat :=
  let (out, hasher) := download_loop body [] ⟨[]⟩
  (out, hasher.finalize)

/-! ## Concrete fixtures used by witnesses and counterexamples -/

def FilterMinor.isPre : FilterMinor → Bool
  | .minor _ => false
  | _ => true

def url0 : Url := ⟨"https", "host", []⟩

def urlAB : Url := ⟨"https", "host", ["a", "b"]⟩

def hash130 : String := String.mk (List.replicate 130 'a')

def hash128 : String := String.mk (List.replicate 128 'a')

def iref130 : InstallRef :=
  ⟨"/archive/pkg.tar.zst", "application/x-tar", some "zstd", ⟨100, some hash130⟩⟩

def pkg130 : PackageData := ⟨"edgedb-server", "1.0", [iref130]⟩

def data130 : RepositoryData := ⟨[pkg130]⟩

def stablePkg (vstr : String) : PackageData :=
  ⟨"edgedb-server", vstr,
    [⟨"/archive/pkg.tar.zst", "application/x-tar", some "zstd",
      ⟨100, some hash128⟩⟩]⟩

def data124 : RepositoryData := ⟨[stablePkg "1.2", stablePkg "1.3", stablePkg "1.4"]⟩

def oracle500 : Nat → Url → HttpReply := fun _ _ => .ok ⟨500, none, .error "no body"⟩

def oracle404 : Nat → Url → HttpReply := fun _ _ => .ok ⟨404, none, .error "no body"⟩

def oracle403 : Nat → Url → HttpReply := fun _ _ => .ok ⟨403, none, .error "no body"⟩

def oracle303 : Nat → Url → HttpReply :=
  fun _ _ => .ok ⟨303, some "/foo", .error "no body"⟩

/-! ## Theorems -/

set_option maxRecDepth 40000

/-- C8: `Channel::from_version` is Nightly exactly on Dev minors, Stable
exactly on Minor minors or pre-release minors with major 1, and an error
exactly on pre-release minors with major different from 1. -/
theorem c8_channel_from_version (v : Specific) :
    (Channel.from_version v = .ok .nightly ↔ (∃ n, v.minor = .dev n)) ∧
    (Channel.from_version v = .ok .stable ↔
      ((∃ n, v.minor = .minor n) ∨
        ((∃ n, v.minor = .alpha n ∨ v.minor = .beta n ∨ v.minor = .rc n) ∧
          v.major = 1))) ∧
    ((∃ e, Channel.from_version v = .error e) ↔
      ((∃ n, v.minor = .alpha n ∨ v.minor = .beta n ∨ v.minor = .rc n) ∧
        v.major ≠ 1)) := by
  obtain ⟨major, minor⟩ := v
  cases minor <;> by_cases h : major = 1 <;>
    simp [Channel.from_version, h]

/-- C10: a filterless query's `matches` never fails: when channel derivation
for the version errors, `matches` returns `false`. -/
theorem c10_matches_absorbs_channel_error (q : Query) (b : Build)
    (hq : q.version = none) (e : String)
    (he : Channel.from_version b.specific = .error e) :
    q.matches b = false := by
  simp [Query.matches, hq, he]

/-- Witness for C10 at a concrete query and a 2.0-rc.1 build. -/
theorem c10_witness :
    Query.matches ⟨Channel.stable, none⟩ ⟨⟨2, .rc 1⟩, none⟩ = false :=
  c10_matches_absorbs_channel_error ⟨Channel.stable, none⟩ ⟨⟨2, .rc 1⟩, none⟩
    rfl "prerelease versions > 1.0 are no supported yet" rfl

/-- Helper for C4: the download loop appends the whole body to the file and
feeds the whole body to the hasher. -/
theorem download_loop_spec (n : Nat) :
    ∀ body out : List Nat, ∀ hasher : HashState, body.length ≤ n →
      download_loop body out hasher = (out ++ body, ⟨hasher.fed ++ body⟩) := by
  induction n with
  | zero =>
    intro body out hasher hlen
    have hb : body = [] := List.eq_nil_of_length_eq_zero (by omega)
    subst hb
    rw [download_loop]
    simp
  | succ k ih =>
    intro body out hasher hlen
    rw [download_loop]
    by_cases hb : body.take 16384 = []
    · have : body = [] := by
        cases body with
        | nil => rfl
        | cons x xs => simp at hb
      subst this
      simp [hb]
    · rw [if_neg hb]
      have hdrop : (body.drop 16384).length ≤ k := by
        have : body ≠ [] := by
          intro h
          exact hb (by simp [h])
        have hpos : 0 < body.length := List.length_pos.mpr this
        simp only [List.length_drop]
        omega
      rw [ih _ _ _ hdrop]
      simp [HashState.update, List.append_assoc, List.take_append_drop]

/-- C4: for every byte stream consumed by `download`, the destination file's
contents equal exactly the stream's bytes and the returned digest is the
Blake2b-512 hash of exactly those bytes; `download` returns unconditionally
for every stream — it takes no expected hash and never rejects a
mismatch. -/
theorem c4_download_hashes_stream (body : List Nat) :
    download body = (body, blake2b_hash body) := by
  unfold download
  rw [download_loop_spec body.length body [] ⟨[]⟩ le_rfl]
  simp [HashState.finalize]

/-- C5 counterexample: with the nightly flag set and version text "1.3",
`Query::from_options` returns a query that still carries the parsed filter,
not the filterless nightly query the claim promises. -/
theorem c5_counterexample :
    Query.from_options true (some "1.3") =
      .ok ⟨Channel.nightly, some ⟨1, some (.minor 3)⟩⟩ ∧
    Query.from_options true (some "1.3") ≠ .ok ⟨Channel.nightly, none⟩ := by
  decide

/-- C5 amended: the nightly flag forces the channel to Nightly regardless of
version text, but any version text is still parsed into the query's filter
(and malformed text still fails the call). -/
theorem c5_from_options_nightly :
    (Query.from_options true none = .ok ⟨Channel.nightly, none⟩) ∧
    (∀ v f, parseFilter (Version.num v) = some f →
      Query.from_options true (some v) = .ok ⟨Channel.nightly, some f⟩) ∧
    (∀ v, parseFilter (Version.num v) = none →
      Query.from_options true (some v) = .error "Unexpected --version") ∧
    (∀ v q, Query.from_options true v = .ok q → q.channel = Channel.nightly) := by
  refine ⟨rfl, ?_, ?_, ?_⟩
  · intro v f hf
    simp [Query.from_options, hf]
  · intro v hf
    simp [Query.from_options, hf]
  · intro v q hq
    cases v with
    | none =>
      simp [Query.from_options] at hq
      rw [← hq]
    | some v =>
      cases hf : parseFilter (Version.num v) with
      | none => simp [Query.from_options, hf] at hq
      | some f =>
        simp [Query.from_options, hf] at hq
        rw [← hq]

/-- Witness for the amended C5 at concrete inputs. -/
theorem c5_witness :
    Query.from_options true (some "1.3") =
      .ok ⟨Channel.nightly, some ⟨1, some (.minor 3)⟩⟩ :=
  c5_from_options_nightly.2.1 "1.3" ⟨1, some (.minor 3)⟩ (by decide)

/-- C2: a `PackageInfo` is only built from the first install reference with
tar content type, zstd encoding and a valid 128-hex-character blake2b hash;
entries with no qualifying reference or an unparsable version are dropped;
dropping never fails `get_server_packages`; and the single package whose only
reference carries a 130-character blake2b string yields the empty list. -/
theorem c2_filter_package_validation (root : Url) (pkg : PackageData) :
    (∀ info, _filter_package root pkg = some info →
      ∃ iref h v, pkg.installrefs.find? installref_ok = some iref ∧
        iref.verification.blake2b = some h ∧ valid_hash h = true ∧
        parseBuild pkg.version = some v ∧
        info = ⟨v, root.join iref.path, iref.verification.size,
          .blake2b h, .tarZst⟩) ∧
    (pkg.installrefs.find? installref_ok = none →
      _filter_package root pkg = none) ∧
    (parseBuild pkg.version = none → _filter_package root pkg = none) ∧
    (∀ data root2, ∃ l, get_server_packages (.ok data) root2 = .ok l) ∧
    (get_server_packages (.ok data130) url0 = .ok []) := by
  refine ⟨?_, ?_, ?_, fun data root2 => ⟨_, rfl⟩, by decide⟩
  · intro info hinfo
    unfold _filter_package at hinfo
    cases hfind : pkg.installrefs.find? installref_ok with
    | none => rw [hfind] at hinfo; simp at hinfo
    | some iref =>
      rw [hfind] at hinfo
      dsimp only at hinfo
      cases hpb : parseBuild pkg.version with
      | none => rw [hpb] at hinfo; simp at hinfo
      | some v =>
        rw [hpb] at hinfo
        dsimp only at hinfo
        cases hb : iref.verification.blake2b with
        | none => rw [hb] at hinfo; simp at hinfo
        | some h =>
          rw [hb] at hinfo
          simp only [Option.some.injEq] at hinfo
          have hok := List.find?_some hfind
          simp [installref_ok, hb] at hok
          exact ⟨iref, h, v, rfl, hb, hok.2, rfl, hinfo.symm⟩
  · intro hfind
    unfold _filter_package
    rw [hfind]
  · intro hpb
    unfold _filter_package
    cases hfind : pkg.installrefs.find? installref_ok with
    | none => rfl
    | some iref =>
      rw [hpb]

/-- Witness for C2 at a package with no install references. -/
theorem c2_witness :
    _filter_package url0 ⟨"edgedb-server", "1.0", []⟩ = none :=
  (c2_filter_package_validation url0 ⟨"edgedb-server", "1.0", []⟩).2.1 rfl

/-- C7: a NotFound index-fetch failure yields an empty package list, every
other fetch failure propagates, and a 404 reply makes the fetcher (and the
JSON helper above it) fail with the distinguished NotFound error. -/
theorem c7_notfound_as_empty :
    (∀ root, get_server_packages (.error .notFound) root = .ok []) ∧
    (∀ root e, e ≠ FetchError.notFound →
      get_server_packages (.error e) root = .error e) ∧
    (∀ oracle url res, oracle 0 url = .ok res → res.status = 404 →
      (get_header oracle url).result = .error .notFound ∧
      get_json oracle url = .error .notFound) := by
  refine ⟨fun root => rfl, ?_, ?_⟩
  · intro root e he
    simp [get_server_packages, he]
  · intro oracle url res hres hstatus
    have hh : (get_header oracle url).result = .error .notFound := by
      unfold get_header
      rw [get_header_loop, hres]
      simp [hstatus, isSuccess, isRedirection, isServerError]
    exact ⟨hh, by simp [get_json, hh]⟩

/-- Witness for C7 at concrete fetch results and a concrete 404 oracle. -/
theorem c7_witness :
    get_server_packages (.error .notFound) url0 = .ok [] ∧
    get_server_packages (.error (.httpFailure 403)) url0 =
      .error (.httpFailure 403) ∧
    (get_header oracle404 url0).result = .error .notFound := by
  refine ⟨c7_notfound_as_empty.1 url0,
    c7_notfound_as_empty.2.1 url0 _ (by decide),
    (c7_notfound_as_empty.2.2 oracle404 url0 ⟨404, none, .error "no body"⟩
      rfl rfl).1⟩

/-- C6 counterexample: the round-trip fails on queries the code can build.
A Nightly query carrying the filter 1.3 serializes to "nightly" (not the
filter's string form) and deserializes to the filterless nightly query; a
Stable query with the prerelease filter 2.0-rc.1 serializes to the filter's
form but fails to deserialize; a Stable query with a minor-less filter
serializes to "1.0" which re-parses to a different filter. -/
theorem c6_counterexample :
    Query.as_config_value ⟨Channel.nightly, some ⟨1, some (.minor 3)⟩⟩ =
      "nightly" ∧
    Filter.toStr ⟨1, some (.minor 3)⟩ ≠ "nightly" ∧
    Query.deserialize
        (Query.as_config_value ⟨Channel.nightly, some ⟨1, some (.minor 3)⟩⟩) =
      .ok ⟨Channel.nightly, none⟩ ∧
    (⟨Channel.nightly, none⟩ : Query) ≠
      ⟨Channel.nightly, some ⟨1, some (.minor 3)⟩⟩ ∧
    Query.as_config_value ⟨Channel.stable, some ⟨2, some (.rc 1)⟩⟩ =
      Filter.toStr ⟨2, some (.rc 1)⟩ ∧
    Query.deserialize (Filter.toStr ⟨2, some (.rc 1)⟩) =
      .error "prerelease versions > 1.0 are no supported yet" ∧
    Query.as_config_value ⟨Channel.stable, some ⟨1, none⟩⟩ = "1.0" ∧
    Query.deserialize "1.0" = .ok ⟨Channel.stable, some ⟨1, some (.minor 0)⟩⟩ ∧
    (⟨Channel.stable, some ⟨1, some (.minor 0)⟩⟩ : Query) ≠
      ⟨Channel.stable, some ⟨1, none⟩⟩ := by
  decide

/-- C6 amended: the wildcard tokens round-trip exactly; a Stable query whose
filter has an explicit minor — with prerelease minors only at major 1 —
serializes to the filter's own string form and deserializes back to an equal
query.  (Nightly queries carrying a filter serialize to "nightly" and lose
the filter; prerelease filters at other majors fail to re-parse into a
channel; minor-less filters re-parse with an explicit minor 0.) -/
theorem c6_roundtrip :
    (Query.as_config_value ⟨Channel.stable, none⟩ = "*") ∧
    (Query.deserialize "*" = .ok ⟨Channel.stable, none⟩) ∧
    (Query.as_config_value ⟨Channel.nightly, none⟩ = "nightly") ∧
    (Query.deserialize "nightly" = .ok ⟨Channel.nightly, none⟩) ∧
    (∀ f m, f.minor = some m → (m.isPre = true → f.major = 1) →
      Query.as_config_value ⟨Channel.stable, some f⟩ = f.toStr ∧
      Query.deserialize f.toStr = .ok ⟨Channel.stable, some f⟩) := by
  refine ⟨rfl, by decide, rfl, by decide, ?_⟩
  intro f m hm hpre
  have hparse : parseFilter f.toStr = some f := by
    unfold parseFilter Filter.toStr
    exact parseFilterChars_roundtrip f m hm
  constructor
  · simp [Query.as_config_value]
  · unfold Query.deserialize
    rw [if_neg (Filter_toStr_ne_star f), if_neg (Filter_toStr_ne_nightly f)]
    rw [hparse]
    cases m with
    | minor n => simp [Channel.from_filter, hm]
    | alpha n =>
      have h1 : f.major = 1 := hpre rfl
      simp [Channel.from_filter, hm, h1]
    | beta n =>
      have h1 : f.major = 1 := hpre rfl
      simp [Channel.from_filter, hm, h1]
    | rc n =>
      have h1 : f.major = 1 := hpre rfl
      simp [Channel.from_filter, hm, h1]

/-- Witness for the amended C6 at the filter 1.3. -/
theorem c6_witness :
    Query.as_config_value ⟨Channel.stable, some ⟨1, some (.minor 3)⟩⟩ =
      Filter.toStr ⟨1, some (.minor 3)⟩ ∧
    Query.deserialize (Filter.toStr ⟨1, some (.minor 3)⟩) =
      .ok ⟨Channel.stable, some ⟨1, some (.minor 3)⟩⟩ :=
  c6_roundtrip.2.2.2.2 ⟨1, some (.minor 3)⟩ (.minor 3) rfl (by decide)

/-- Helper for C3: the `max_by_key` fold returns a member (or the seed) that
dominates every list element and the seed under the `Specific` order. -/
theorem pick_max_foldl_spec (l : List PackageInfo) :
    ∀ acc p, l.foldl pick_step acc = some p →
      (p ∈ l ∨ acc = some p) ∧
      (∀ q ∈ l, Specific.le q.version.specific p.version.specific = true) ∧
      (∀ q, acc = some q →
        Specific.le q.version.specific p.version.specific = true) := by
  induction l with
  | nil =>
    intro acc p h
    simp only [List.foldl_nil] at h
    refine ⟨Or.inr h, by simp, ?_⟩
    intro q hq
    rw [h] at hq
    cases hq
    exact Specific.le_refl _
  | cons x xs ih =>
    intro acc p h
    simp only [List.foldl_cons] at h
    obtain ⟨hmem, hmax, hacc⟩ := ih (pick_step acc x) p h
    have hstep_le : Specific.le x.version.specific p.version.specific = true := by
      cases acc with
      | none => exact hacc x rfl
      | some m =>
        simp only [pick_step] at hacc
        by_cases hle : Specific.le m.version.specific x.version.specific = true
        · rw [if_pos hle] at hacc
          exact hacc x rfl
        · rw [if_neg hle] at hacc
          have hxm : Specific.le x.version.specific m.version.specific = true := by
            rcases Specific.le_total m.version.specific x.version.specific with h1 | h1
            · exact absurd h1 hle
            · exact h1
          exact Specific.le_trans _ _ _ hxm (hacc m rfl)
    refine ⟨?_, ?_, ?_⟩
    · rcases hmem with hp | hp
      · exact Or.inl (List.mem_cons_of_mem x hp)
      · cases acc with
        | none =>
          simp only [pick_step] at hp
          cases hp
          exact Or.inl (List.mem_cons_self x xs)
        | some m =>
          simp only [pick_step] at hp
          by_cases hle : Specific.le m.version.specific x.version.specific = true
          · rw [if_pos hle] at hp
            cases hp
            exact Or.inl (List.mem_cons_self x xs)
          · rw [if_neg hle] at hp
            exact Or.inr hp
    · intro q hq
      rcases List.mem_cons.mp hq with hq | hq
      · rw [hq]
        exact hstep_le
      · exact hmax q hq
    · intro q hq
      subst hq
      simp only [pick_step] at hacc
      by_cases hle : Specific.le q.version.specific x.version.specific = true
      · rw [if_pos hle] at hacc
        exact Specific.le_trans _ _ _ hle (hacc x rfl)
      · rw [if_neg hle] at hacc
        exact hacc q rfl

/-- C3: `get_server_package` returns the maximum, under the version
algebra's order on `Specific` projections, of the candidates accepted by the
query's filter (no filter accepting all), `none` when no candidate is
accepted, and in particular the 1.4 package out of stable 1.2/1.3/1.4 for an
unfiltered query. -/
theorem c3_get_server_package (q : Query) (data : RepositoryData) (root : Url)
    (pkgs : List PackageInfo)
    (hp : get_server_packages (.ok data) root = .ok pkgs) :
    (get_server_package q (.ok data) root =
      .ok (pick_max (pkgs.filter (fun pkg =>
        (q.version.map (fun f => f.matches pkg.version)).getD true)))) ∧
    (pkgs.filter (fun pkg =>
        (q.version.map (fun f => f.matches pkg.version)).getD true) = [] →
      get_server_package q (.ok data) root = .ok none) ∧
    (∀ p, get_server_package q (.ok data) root = .ok (some p) →
      p ∈ pkgs.filter (fun pkg =>
        (q.version.map (fun f => f.matches pkg.version)).getD true) ∧
      ∀ p2 ∈ pkgs.filter (fun pkg =>
          (q.version.map (fun f => f.matches pkg.version)).getD true),
        Specific.le p2.version.specific p.version.specific = true) ∧
    (get_server_package ⟨Channel.stable, none⟩ (.ok data124) url0 =
      .ok (some ⟨⟨⟨1, .minor 4⟩, none⟩,
        ⟨"https", "host", ["archive", "pkg.tar.zst"]⟩, 100,
        .blake2b hash128, .tarZst⟩)) := by
  have hmain : get_server_package q (.ok data) root =
      .ok (pick_max (pkgs.filter (fun pkg =>
        (q.version.map (fun f => f.matches pkg.version)).getD true))) := by
    unfold get_server_package
    rw [hp]
  refine ⟨hmain, ?_, ?_, by decide⟩
  · intro hempty
    rw [hmain, hempty]
    rfl
  · intro p hsome
    rw [hmain] at hsome
    simp only [Except.ok.injEq] at hsome
    unfold pick_max at hsome
    obtain ⟨hmem, hmax, _⟩ := pick_max_foldl_spec _ none p hsome
    refine ⟨?_, hmax⟩
    rcases hmem with h | h
    · exact h
    · cases h

/-- Witness for C3 at an empty index. -/
theorem c3_witness :
    get_server_package ⟨Channel.stable, none⟩ (.ok ⟨[]⟩) url0 = .ok none :=
  (c3_get_server_package ⟨Channel.stable, none⟩ ⟨[]⟩ url0 [] rfl).2.1 rfl

/-- Helper for C1: under an all-500 transport, from any loop state with
`fuel` iterations left before the attempt counter exceeds the cap, the loop
sleeps once per iteration along the backoff schedule and fails with "too
many attempts" after exactly `fuel` further GET requests. -/
theorem get_header_loop_all500 (oracle : Nat → Url → HttpReply)
    (h : ∀ n u, ∃ res, oracle n u = .ok res ∧ res.status = 500) :
    ∀ fuel, 1 ≤ fuel →
      ∀ url attempt reqIdx retryIdx sleeps,
        attempt + fuel = MAX_ATTEMPTS + 1 →
        get_header_loop oracle url attempt reqIdx retryIdx sleeps =
          ⟨.error .tooManyAttempts, reqIdx + fuel,
            sleeps ++ (List.range' retryIdx fuel).map retry_seconds⟩ := by
  intro fuel
  induction fuel with
  | zero => intro h1; omega
  | succ f ih =>
    intro _ url attempt reqIdx retryIdx sleeps hsum
    obtain ⟨res, hres, hstatus⟩ := h reqIdx url
    have hns : isSuccess res.status = false := by rw [hstatus]; rfl
    have hnr : isRedirection res.status = false := by rw [hstatus]; rfl
    have hse : (isServerError res.status || (res.status == 429)) = true := by
      rw [hstatus]; rfl
    rw [get_header_loop, hres]
    simp only [hns, hnr, hse, Bool.false_eq_true, if_false, if_true]
    cases f with
    | zero =>
      rw [dif_pos (by omega)]
      simp
    | succ f2 =>
      rw [dif_neg (by omega)]
      rw [ih (by omega) url (attempt + 1) (reqIdx + 1) (retryIdx + 1)
        (sleeps ++ [retry_seconds retryIdx]) (by omega)]
      refine congrArg₂ (fun a b => FetchOutcome.mk (.error .tooManyAttempts) a b)
        (by omega) ?_
      rw [List.append_assoc, List.range'_succ, List.map_cons]
      rfl

/-- C1 amended: when every GET returns HTTP 500, `get_header` fails with
"too many attempts" after exactly 11 attempts (the counter is incremented
after each failed attempt and the call fails only once it strictly exceeds
the cap of 10), each failed attempt having slept for the next value of the
backoff schedule 5s, 15s, 30s, 60s, 60s repeating. -/
theorem c1_all500_eleven_attempts (oracle : Nat → Url → HttpReply) (url : Url)
    (h : ∀ n u, ∃ res, oracle n u = .ok res ∧ res.status = 500) :
    get_header oracle url =
      ⟨.error .tooManyAttempts, 11,
        [5, 15, 30, 60, 60, 60, 60, 60, 60, 60, 60]⟩ := by
  have heq := get_header_loop_all500 oracle h 11 (by omega) url 0 0 0 []
    (by decide)
  unfold get_header
  rw [heq]
  rfl

/-- Witness for the amended C1 at a concrete all-500 oracle. -/
theorem c1_witness :
    get_header oracle500 url0 =
      ⟨.error .tooManyAttempts, 11,
        [5, 15, 30, 60, 60, 60, 60, 60, 60, 60, 60]⟩ :=
  c1_all500_eleven_attempts oracle500 url0
    (fun _ _ => ⟨⟨500, none, .error "no body"⟩, rfl, rfl⟩)

/-- C1 counterexample: with every GET returning 500, `get_header` issues 11
GET requests (and sleeps 11 times), not the 10 attempts the claim states. -/
theorem c1_counterexample :
    (get_header oracle500 url0).requests = 11 ∧
    (get_header oracle500 url0).sleeps =
      [5, 15, 30, 60, 60, 60, 60, 60, 60, 60, 60] ∧
    ¬((get_header oracle500 url0).requests = 10) := by
  have heq := get_header_loop_all500 oracle500
    (fun _ _ => ⟨⟨500, none, .error "no body"⟩, rfl, rfl⟩) 11 (by omega)
    url0 0 0 0 [] (by decide)
  unfold get_header
  rw [heq]
  refine ⟨rfl, by rfl, by decide⟩

/-- C9: on a 3xx response the fetcher fails with "unexpected redirect kind"
exactly when the Location header is absent; with a Location present it
resolves the location against the current URL (absolute locations as-is,
relative ones joined, so "/foo" at https host path a/b resolves to the host
root path foo) and continues the loop at the new URL without consuming a
value of the backoff schedule. -/
theorem c9_redirect_handling (oracle : Nat → Url → HttpReply) (url : Url)
    (attempt reqIdx retryIdx : Nat) (sleeps : List Nat) (res : Response)
    (hres : oracle reqIdx url = .ok res)
    (hred : isRedirection res.status = true) :
    (res.location = none →
      get_header_loop oracle url attempt reqIdx retryIdx sleeps =
        ⟨.error (.unexpectedRedirect res.status), reqIdx + 1, sleeps⟩) ∧
    (∀ location new_url, res.location = some location →
      resolveLocation url location = .ok new_url →
      attempt + 1 ≤ MAX_ATTEMPTS →
      get_header_loop oracle url attempt reqIdx retryIdx sleeps =
        get_header_loop oracle new_url (attempt + 1) (reqIdx + 1) retryIdx
          sleeps) ∧
    (resolveLocation urlAB "/foo" = .ok ⟨"https", "host", ["foo"]⟩) := by
  have harith := hred
  simp only [isRedirection, Bool.and_eq_true, Nat.ble_eq] at harith
  have hns : isSuccess res.status = false := by
    cases hs : isSuccess res.status with
    | false => rfl
    | true =>
      exfalso
      simp only [isSuccess, Bool.and_eq_true, Nat.ble_eq] at hs
      omega
  refine ⟨?_, ?_, by decide⟩
  · intro hloc
    rw [get_header_loop, hres]
    simp [hns, hred, hloc]
  · intro location new_url hloc hresolve hcap
    rw [get_header_loop, hres]
    simp only [hns, hred, hloc, hresolve, Bool.false_eq_true, if_false,
      if_true]
    rw [dif_neg (by omega)]

/-- Witness for C9: a 303 redirect to "/foo" while fetching https host a/b
continues at https host foo with the backoff position unchanged. -/
theorem c9_witness :
    get_header_loop oracle303 urlAB 0 0 0 [] =
      get_header_loop oracle303 ⟨"https", "host", ["foo"]⟩ 1 1 0 [] :=
  (c9_redirect_handling oracle303 urlAB 0 0 0 []
      ⟨303, some "/foo", .error "no body"⟩ rfl rfl).2.1
    "/foo" ⟨"https", "host", ["foo"]⟩ rfl (by decide) (by decide)
